import Mathlib

/-!
Verification of the basketry sorbet-docs README generator
(`src/readme-factory.ts`, `src/name-factory.ts`) against its
natural-language specification.

The TypeScript source is shallowly embedded: generators become functions
returning `List String`; the unbounded recursion of `traverseType` becomes a
fuel-indexed function returning `Option` (`none` models a run that has not
finished within the given recursion depth, so `∀ fuel, ... = none` models
divergence); JavaScript's stable `Array.prototype.sort` becomes
`List.insertionSort` (stable and sorted, hence extensionally equal to any
stable sort for a consistent comparator).

External collaborators (the `basketry` helpers, the `case` casing library,
the `@basketry/sorbet` name factory, and the ECMAScript `localeCompare`
builtin) are modelled from their documented behaviour; each such definition
carries a comment saying so.  Everything else is translated directly from
the repository source.
-/

/-! ## Collation: model of String.prototype.localeCompare -/

/-- Lexicographic comparison of lists of naturals. -/
def cmpLex : List Nat → List Nat → Ordering
  | [], [] => Ordering.eq
  | [], _ :: _ => Ordering.lt
  | _ :: _, [] => Ordering.gt
  | a :: as, b :: bs =>
    match compare a b with
    | Ordering.eq => cmpLex as bs
    | o => o

/-- Primary collation weight of a character: its lowercase code point.
Models the case-insensitive primary level of the ICU root collation used by
`String.prototype.localeCompare` for ASCII names. -/
def primChar (c : Char) : Nat := c.toLower.toNat

/-- Tertiary collation weight: lowercase sorts before uppercase.
Models the case (tertiary) level of the ICU root collation. -/
def tertChar (c : Char) : Nat := if c.isUpper then 1 else 0

/-- Modelled external builtin: `a.localeCompare(b)` as an `Ordering`.
The primary (case-insensitive) pass decides; ties are broken by the
case pass.  Faithful to the ICU root locale on ASCII names. -/
def localeCompareOrd (a b : String) : Ordering :=
  match cmpLex (a.data.map primChar) (b.data.map primChar) with
  | Ordering.eq => cmpLex (a.data.map tertChar) (b.data.map tertChar)
  | o => o

/-- Modelled external builtin: `String.prototype.localeCompare`. -/
def localeCompare (a b : String) : Int :=
  match localeCompareOrd a b with
  | Ordering.lt => -1
  | Ordering.eq => 0
  | Ordering.gt => 1

/-- Comparator relation induced by a JS sort callback keyed by name:
`(a, b) => key(a).localeCompare(key(b))`. -/
abbrev byNameLe {α : Type} (key : α → String) (a b : α) : Prop :=
  localeCompare (key a) (key b) ≤ 0

/-- Model of the stable ECMAScript `Array.prototype.sort` with comparator
`(a, b) => key(a).localeCompare(key(b))`: a stable sort (insertion sort)
under the induced relation. -/
def sortByName {α : Type} (key : α → String) (xs : List α) : List α :=
  List.insertionSort (byNameLe key) xs

/-! ## Casing: model of the `case` package (external collaborator) -/

/-- Word separator characters recognised by the `case` package. -/
def isWordSep (c : Char) : Bool := c = '_' || c = '-' || c = ' '

/-- Splits an identifier into words at separators and camel-case humps.
Models the word splitting of the `case` package on ASCII identifiers. -/
def splitWordsGo : List Char → List Char → List (List Char)
  | [], acc => if acc.isEmpty then [] else [acc.reverse]
  | c :: cs, acc =>
    if isWordSep c then
      if acc.isEmpty then splitWordsGo cs [] else acc.reverse :: splitWordsGo cs []
    else
      match acc with
      | [] => splitWordsGo cs [c]
      | p :: _ =>
        if c.isUpper && !p.isUpper then acc.reverse :: splitWordsGo cs [c]
        else splitWordsGo cs (c :: acc)

def splitWords (s : String) : List (List Char) := splitWordsGo s.data []

def capitalize : List Char → List Char
  | [] => []
  | c :: cs => c.toUpper :: cs.map Char.toLower

/-- Modelled external collaborator: `pascal` from the `case` package. -/
def pascal (s : String) : String := String.mk ((splitWords s).flatMap capitalize)

/-- Modelled external collaborator: `snake` from the `case` package. -/
def snake (s : String) : String :=
  String.mk (List.intercalate ['_'] ((splitWords s).map (fun w => w.map Char.toLower)))

/-- Modelled external collaborator: `title` from the `case` package. -/
def title (s : String) : String :=
  String.mk (List.intercalate [' '] ((splitWords s).map capitalize))

/-! ## Data model (basketry schema entities, as consumed by the source) -/

/-- A basketry string literal node (`{ value: string }`). -/
structure Literal where
  value : String
deriving DecidableEq, Repr

/-- Optional description: a single literal or an array of literals. -/
inductive Description where
  | single (value : String)
  | multi (lines : List String)
deriving DecidableEq, Repr

/-- A type reference as it appears on parameters, properties and return
types: primitive-or-named plus an array flag. -/
structure TypeRef where
  typeName : Literal
  isPrimitive : Bool
  isArray : Bool
deriving DecidableEq, Repr

structure Parameter where
  name : Literal
  typeName : Literal
  isPrimitive : Bool
  isArray : Bool
  required : Bool
  description : Option Description
deriving DecidableEq, Repr

structure Property where
  name : Literal
  typeName : Literal
  isPrimitive : Bool
  isArray : Bool
  required : Bool
  description : Option Description
deriving DecidableEq, Repr

def Parameter.toRef (p : Parameter) : TypeRef := ⟨p.typeName, p.isPrimitive, p.isArray⟩

def Property.toRef (p : Property) : TypeRef := ⟨p.typeName, p.isPrimitive, p.isArray⟩

structure Method where
  name : Literal
  parameters : List Parameter
  returnType : Option TypeRef
  description : Option Description
deriving DecidableEq, Repr

structure Interface where
  name : Literal
  methods : List Method
deriving DecidableEq, Repr

structure Type' where
  name : Literal
  properties : List Property
  description : Option Description
deriving DecidableEq, Repr

structure Enum where
  name : Literal
  values : List Literal
deriving DecidableEq, Repr

structure Service where
  title : Literal
  interfaces : List Interface
  types : List Type'
  enums : List Enum
deriving DecidableEq, Repr

/-- Generator output file: a path (list of segments) plus rendered text. -/
structure File' where
  path : List String
  contents : String
deriving DecidableEq, Repr

/-- Modelled options object (`NamespacedSorbetOptions`); only the namespace
override matters to this generator. -/
structure NamespacedSorbetOptions where
  sorbetNamespace : Option String
deriving DecidableEq, Repr

/-! ## External basketry helpers (modelled) -/

/-- Modelled from the spec: the Reference Resolver (`getTypeByName` from the
external `basketry` package) is a pure lookup by exact name match against the
model's type registry, returning not-found for dangling references. -/
def getTypeByName (service : Service) (typeName : String) : Option Type' :=
  service.types.find? (fun t => t.name.value == typeName)

/-- Modelled from the spec: the Reference Resolver (`getEnumByName` from the
external `basketry` package), exact name match against the enum registry. -/
def getEnumByName (service : Service) (enumName : String) : Option Enum :=
  service.enums.find? (fun e => e.name.value == enumName)

/-- Modelled external helper: basketry's `isRequired`, here read off the
parameter's required flag (spec section 3 models it as a flag). -/
def isRequired (p : Parameter) : Bool := p.required

/-! ## External sorbet name factory (modelled collaborators) -/

/-- Modelled external collaborator: `buildInterfaceNamespace` from
`@basketry/sorbet/lib/name-factory`. -/
def buildInterfaceNamespace (service : Service)
    (options : Option NamespacedSorbetOptions) : String :=
  match options with
  | some o =>
    match o.sorbetNamespace with
    | some ns => ns
    | none => pascal service.title.value
  | none => pascal service.title.value

/-- Modelled external collaborator: `buildTypeNamespace` from
`@basketry/sorbet/lib/name-factory`. -/
def buildTypeNamespace (service : Service)
    (options : Option NamespacedSorbetOptions) : String :=
  buildInterfaceNamespace service options ++ "::Types"

/-- Modelled external collaborator: `buildInterfaceName`. -/
def buildInterfaceName (int : Interface) : String :=
  pascal int.name.value ++ "Service"

/-- Modelled external collaborator: `buildMethodName` (sorbet methods are
snake-cased). -/
def buildMethodName (m : Method) : String := snake m.name.value

/-- Modelled external collaborator: `buildParameterName`. -/
def buildParameterName (p : Parameter) : String := snake p.name.value

/-- Modelled external collaborator: `buildPropertyName`. -/
def buildPropertyName (p : Property) : String := snake p.name.value

/-- Modelled external collaborator: `buildTypeName` from
`@basketry/sorbet/lib/name-factory`: primitives keep their name, named types
are fully qualified under the type namespace, and arrays are wrapped unless
`skipArrayify` is set. -/
def buildTypeNameExt (type : TypeRef) (service : Service)
    (options : Option NamespacedSorbetOptions) (skipArrayify : Bool) : String :=
  let base :=
    if type.isPrimitive then type.typeName.value
    else buildTypeNamespace service options ++ "::" ++ pascal type.typeName.value
  if type.isArray && !skipArrayify then "T::Array[" ++ base ++ "]" else base

/-! ## src/readme-factory.ts -/

/-- `anchor` from `src/readme-factory.ts`:
lowercase the name, replace spaces with hyphens, prefix a hash. -/
def anchor (name : String) : String :=
  "#" ++ String.mk (name.data.map (fun c => if c.toLower = ' ' then '-' else c.toLower))

/-- Relation induced by the comparator of `sortParameters`:
`(a, b) => (isRequired(a) ? 0 : 1) - (isRequired(b) ? 0 : 1)`. -/
abbrev reqLe (a b : Parameter) : Prop :=
  ((if isRequired a then (0 : Int) else 1) - (if isRequired b then 0 else 1)) ≤ 0

/-- `sortParameters` from `src/readme-factory.ts`, with the stable JS sort
modelled by insertion sort. -/
def sortParameters (parameters : List Parameter) : List Parameter :=
  List.insertionSort reqLe parameters

/-- JS `Set.prototype.add` on an insertion-ordered set modelled as a list. -/
def addFound {α : Type} [DecidableEq α] (found : List α) (x : α) : List α :=
  if x ∈ found then found else found ++ [x]

/-- The property loop inside `traverseType`, parametrised by the recursive
call made for resolved property types: non-primitive properties are resolved
and traversed, with their yields concatenated.  (Higher-order so that the
recursion below is structural on the fuel.) -/
def traversePropsAux (service : Service) (rec : Type' → Option (List Type')) :
    List Property → Option (List Type')
  | [] => some []
  | prop :: props =>
    if prop.isPrimitive then traversePropsAux service rec props
    else
      match getTypeByName service prop.typeName.value with
      | none => traversePropsAux service rec props
      | some subtype =>
        match rec subtype, traversePropsAux service rec props with
        | some found, some rest => some (found ++ rest)
        | _, _ => none

/-- `traverseType` from `src/readme-factory.ts`.  The source generator
recurses into property types with no visited set; the embedding adds fuel,
and `none` means the recursion did not bottom out within `fuel` levels
(so `∀ fuel, traverseType fuel s t = none` models divergence). -/
def traverseType : Nat → Service → Type' → Option (List Type')
  | 0, _, _ => none
  | Nat.succ f, service, type =>
    (traversePropsAux service (fun t => traverseType f service t) type.properties).map
      (type :: ·)

/-- The property loop at a given fuel, as in the source's `traverseType`. -/
def traverseProps (fuel : Nat) (service : Service) (props : List Property) :
    Option (List Type') :=
  traversePropsAux service (fun t => traverseType fuel service t) props

/-- The parameter loop of `Builder.types`: accumulate reachable types from
each non-primitive parameter whose type resolves. -/
def typesFromParams (service : Service) (fuel : Nat) :
    List Parameter → List Type' → Option (List Type')
  | [], acc => some acc
  | param :: params, acc =>
    if param.isPrimitive then typesFromParams service fuel params acc
    else
      match getTypeByName service param.typeName.value with
      | none => typesFromParams service fuel params acc
      | some paramType =>
        match traverseType fuel service paramType with
        | none => none
        | some found => typesFromParams service fuel params (found.foldl addFound acc)

/-- The method loop of `Builder.types`: parameters first, then the return
type if present and non-primitive. -/
def typesFromMethods (service : Service) (fuel : Nat) :
    List Method → List Type' → Option (List Type')
  | [], acc => some acc
  | method :: methods, acc =>
    match typesFromParams service fuel method.parameters acc with
    | none => none
    | some acc2 =>
      let step : Option (List Type') :=
        match method.returnType with
        | some rt =>
          if rt.isPrimitive then some acc2
          else
            match getTypeByName service rt.typeName.value with
            | none => some acc2
            | some returnType =>
              (traverseType fuel service returnType).map (fun found => found.foldl addFound acc2)
        | none => some acc2
      match step with
      | none => none
      | some acc3 => typesFromMethods service fuel methods acc3

/-- The direct enum scan of `Builder.enums` over methods: non-primitive
parameter and return type names looked up in the enum registry. -/
def enumsFromMethods (service : Service) : List Method → List Enum → List Enum
  | [], acc => acc
  | method :: methods, acc =>
    let acc2 := method.parameters.foldl
      (fun a param =>
        if param.isPrimitive then a
        else
          match getEnumByName service param.typeName.value with
          | some e => addFound a e
          | none => a) acc
    let acc3 :=
      match method.returnType with
      | some rt =>
        if rt.isPrimitive then acc2
        else
          match getEnumByName service rt.typeName.value with
          | some e => addFound acc2 e
          | none => acc2
      | none => acc2
    enumsFromMethods service methods acc3

/-- The second enum scan of `Builder.enums`: properties of every reachable
type, looked up in the enum registry. -/
def enumsFromTypeProps (service : Service) : List Type' → List Enum → List Enum
  | [], acc => acc
  | t :: ts, acc =>
    enumsFromTypeProps service ts
      (t.properties.foldl
        (fun a prop =>
          if prop.isPrimitive then a
          else
            match getEnumByName service prop.typeName.value with
            | some e => addFound a e
            | none => a) acc)

/-- The `Builder` class: schema model, options, and the banner text produced
by the external `warning(service, package.json, options)` helper (a
generation timestamp/version banner injected from outside this core). -/
structure Builder where
  service : Service
  options : Option NamespacedSorbetOptions
  warningBody : List String

/-- `Builder#warning`: the banner block wrapped in an HTML comment. -/
def Builder.warning (b : Builder) : List String :=
  "<!--" :: (b.warningBody ++ ["--->"])

/-- `Builder#methods`: the interface's methods sorted by
`a.name.value.localeCompare(b.name.value)`. -/
def Builder.methods (_b : Builder) (int : Interface) : List Method :=
  sortByName (fun m => m.name.value) int.methods

/-- `Builder#types`: reachable types of an interface, deduplicated in
discovery order, then sorted by `localeCompare` on names. -/
def Builder.types (b : Builder) (fuel : Nat) (int : Interface) :
    Option (List Type') :=
  (typesFromMethods b.service fuel int.methods []).map
    (sortByName (fun t => t.name.value))

/-- `Builder#enums`: enums referenced directly by method parameters/returns
and by properties of reachable types, sorted by `localeCompare` on names. -/
def Builder.enums (b : Builder) (fuel : Nat) (int : Interface) :
    Option (List Enum) := do
  let ts ← b.types fuel int
  pure (sortByName (fun e => e.name.value)
    (enumsFromTypeProps b.service ts (enumsFromMethods b.service int.methods [])))

/-- `Builder#buildTypeName`: delegate to the external name factory and strip
the namespace qualifier (namespace length plus the two colons) from
non-primitive names. -/
def Builder.buildTypeName (b : Builder) (type : TypeRef) (skipArrayify : Bool) :
    String :=
  let fullyQualifiedName := buildTypeNameExt type b.service b.options skipArrayify
  if type.isPrimitive then fullyQualifiedName
  else fullyQualifiedName.drop ((buildTypeNamespace b.service b.options).length + 2)

/-- `Builder#buildLinkedTypeName`: primitives render bare, named references
render as a Markdown link targeting the name's anchor; either way an array
marker is appended when the reference is an array. -/
def Builder.buildLinkedTypeName (b : Builder) (param : TypeRef) : String :=
  let typeName := b.buildTypeName param true
  if param.isPrimitive then typeName ++ (if param.isArray then "[]" else "")
  else
    "[" ++ typeName ++ "](" ++ anchor typeName ++ ")" ++
      (if param.isArray then "[]" else "")

/-- `Builder#buildParameterDescription`. -/
def buildParameterDescription (d : Option Description) : String :=
  match d with
  | none => ""
  | some (Description.multi lines) => " - " ++ String.intercalate " " lines
  | some (Description.single v) => " - " ++ v

/-- Description lines as interleaved by the method/type doc generators:
each line is preceded by a blank line. -/
def descriptionLines (d : Option Description) : List String :=
  match d with
  | none => []
  | some (Description.multi lines) => lines.flatMap (fun l => ["", l])
  | some (Description.single v) => ["", v]

/-- `Builder#buildMethodDefinition`: the call signature, with parameters
sorted required-first by `sortParameters`. -/
def Builder.buildMethodDefinition (_b : Builder) (method : Method) : String :=
  buildMethodName method ++
    (if method.parameters.isEmpty then ""
     else
       "(" ++ String.intercalate ", "
         ((sortParameters method.parameters).map
           (fun param => buildParameterName param ++ ":" ++
             (if isRequired param then "" else " nil"))) ++ ")")

/-- `Builder#buildParameter`: one bullet line for a parameter. -/
def Builder.buildParameter (b : Builder) (param : Parameter) : String :=
  "- `" ++ buildParameterName param ++ "` " ++ b.buildLinkedTypeName param.toRef ++
    (if isRequired param then "" else " (optional)") ++
    buildParameterDescription param.description

/-- `Builder#buildProperty`: one bullet line for a property. -/
def Builder.buildProperty (b : Builder) (prop : Property) : String :=
  "- `" ++ buildPropertyName prop ++ "` " ++ b.buildLinkedTypeName prop.toRef ++
    (if prop.required then "" else " (optional)") ++
    buildParameterDescription prop.description

/-- `Builder#buildMethodDocs`: heading, signature, parameter bullets in
declaration order, the Returns line, then the description. -/
def Builder.buildMethodDocs (b : Builder) (method : Method) : List String :=
  ["### " ++ buildMethodName method, "", "`" ++ b.buildMethodDefinition method ++ "`"]
    ++ (if method.parameters.isEmpty then []
        else "" :: method.parameters.map (fun p => b.buildParameter p))
    ++ (match method.returnType with
        | some rt =>
          ["", "Returns: " ++ b.buildLinkedTypeName rt ++
            (if rt.isArray then "[]" else "")]
        | none => [])
    ++ descriptionLines method.description
    ++ [""]

/-- `Builder#buildTypeDocs`. -/
def Builder.buildTypeDocs (b : Builder) (type : Type') : List String :=
  ["### " ++ pascal type.name.value, "",
   "`" ++ buildTypeNamespace b.service b.options ++ "::" ++ pascal type.name.value ++ "`"]
    ++ descriptionLines type.description
    ++ (if type.properties.isEmpty then []
        else "" :: type.properties.map (fun p => b.buildProperty p))
    ++ [""]

/-- `Builder#buildEnumDocs`: heading, qualified name, then the literal
values as bullets in declaration order. -/
def Builder.buildEnumDocs (b : Builder) (e : Enum) : List String :=
  ["### " ++ pascal e.name.value, "",
   "`" ++ buildTypeNamespace b.service b.options ++ "::" ++ pascal e.name.value ++ "`"]
    ++ (if e.values.isEmpty then []
        else "" :: e.values.map (fun v => "- `" ++ v.value ++ "`"))
    ++ [""]

/-- Table-of-contents entry for a method. -/
def tocMethodLine (method : Method) : String :=
  "  - [" ++ buildMethodName method ++ "](" ++ anchor (buildMethodName method) ++ ")"

/-- Table-of-contents entry for a type (display name pascal-cased, anchor
derived from the raw name). -/
def tocTypeLine (type : Type') : String :=
  "  - [" ++ pascal type.name.value ++ "](" ++ anchor type.name.value ++ ")"

/-- Table-of-contents entry for an enum. -/
def tocEnumLine (e : Enum) : String :=
  "  - [" ++ pascal e.name.value ++ "](" ++ anchor e.name.value ++ ")"

/-- `Builder#buildToc`. -/
def Builder.buildToc (b : Builder) (fuel : Nat) (int : Interface) :
    Option (List String) := do
  let methods := b.methods int
  let types ← b.types fuel int
  let enums ← b.enums fuel int
  pure ((if methods.isEmpty then [] else "- Methods" :: methods.map tocMethodLine)
    ++ (if types.isEmpty then [] else "- Types" :: types.map tocTypeLine)
    ++ (if enums.isEmpty then [] else "- Enums" :: enums.map tocEnumLine))

/-- Everything `Builder#buildInterfaceDocs` yields after the banner block:
title, table of contents, and the three optional sections. -/
def Builder.docsTail (b : Builder) (fuel : Nat) (int : Interface) :
    Option (List String) := do
  let methods := b.methods int
  let types ← b.types fuel int
  let enums ← b.enums fuel int
  let toc ← b.buildToc fuel int
  pure ([""] ++ ["# " ++ title (buildInterfaceName int)] ++ [""] ++ toc ++ [""]
    ++ (if methods.isEmpty then []
        else "## Methods" :: "" :: methods.flatMap (fun m => b.buildMethodDocs m))
    ++ (if types.isEmpty then []
        else "## Types" :: "" :: types.flatMap (fun t => b.buildTypeDocs t))
    ++ (if enums.isEmpty then []
        else "## Enums" :: "" :: enums.flatMap (fun e => b.buildEnumDocs e)))

/-- `Builder#buildInterfaceDocs`: the banner block followed by the document
body. -/
def Builder.buildInterfaceDocs (b : Builder) (fuel : Nat) (int : Interface) :
    Option (List String) :=
  (b.docsTail fuel int).map (fun rest => b.warning ++ rest)

/-- `from` of `@basketry/sorbet/lib/utils`: join yielded lines. -/
def fromLines (lines : List String) : String := String.intercalate "\n" lines

/-- Model of the ECMAScript `namespace.split('::')`: cut the character list
at each occurrence of two consecutive colons. -/
def splitSegsGo : List Char → List Char → List String
  | [], acc => [String.mk acc.reverse]
  | ':' :: ':' :: rest, acc => String.mk acc.reverse :: splitSegsGo rest []
  | c :: rest, acc => splitSegsGo rest (c :: acc)

/-- Modelled external builtin: `String.prototype.split("::")`. -/
def splitOnColons (s : String) : List String := splitSegsGo s.data []

/-- `buildInterfaceDocsFilepath` from `src/name-factory.ts`. -/
def buildInterfaceDocsFilepath (int : Interface) (service : Service)
    (options : Option NamespacedSorbetOptions) : List String :=
  (splitOnColons (buildInterfaceNamespace service options)).map snake
    ++ [snake (buildInterfaceName int) ++ ".md"]

/-- `Builder#buildInterfaceDocsFile`. -/
def Builder.buildInterfaceDocsFile (b : Builder) (fuel : Nat) (int : Interface) :
    Option File' :=
  (b.buildInterfaceDocs fuel int).map
    (fun lines => ⟨buildInterfaceDocsFilepath int b.service b.options, fromLines lines⟩)

/-- Sequential `Array.prototype.map` with a possibly diverging callback:
divergence anywhere diverges the whole map. -/
def optionMap {α β : Type} (f : α → Option β) : List α → Option (List β)
  | [] => some []
  | a :: as =>
    match f a, optionMap f as with
    | some b, some bs => some (b :: bs)
    | _, _ => none

/-- `Builder#build` / `generateDocs`: one file per interface. -/
def Builder.build (b : Builder) (fuel : Nat) : Option (List File') :=
  optionMap (fun int => b.buildInterfaceDocsFile fuel int) b.service.interfaces

/-- `generateDocs`, the exported entry point. -/
def generateDocs (service : Service) (options : Option NamespacedSorbetOptions)
    (warningBody : List String) (fuel : Nat) : Option (List File') :=
  (Builder.mk service options warningBody).build fuel

/-! ## Concrete example models used by witnesses and counterexamples -/

/-- Bullet-line recogniser used to isolate the rendered value bullets of an
enum section: a line whose first two characters are a dash and a space. -/
def isBulletLine (l : String) : Bool := decide (l.data.take 2 = ['-', ' '])

/-- Ordinal (code-unit) strict lexicographic comparison of strings, the
comparison the spec calls "ordinal/lexicographic (not locale-sensitive)". -/
abbrev ordinalLt (a b : String) : Prop :=
  cmpLex (a.data.map Char.toNat) (b.data.map Char.toNat) = Ordering.lt

/-- A self-referential type: `a` has a property of type `a`. -/
def cycType : Type' := ⟨⟨"a"⟩, [⟨⟨"p"⟩, ⟨"a"⟩, false, false, true, none⟩], none⟩

/-- An interface with one method taking a parameter of the cyclic type. -/
def cycInt : Interface :=
  ⟨⟨"gadgets"⟩, [⟨⟨"getA"⟩, [⟨⟨"x"⟩, ⟨"a"⟩, false, false, true, none⟩], none, none⟩]⟩

/-- A service whose type reference graph has a cycle. -/
def cycService : Service := ⟨⟨"svc"⟩, [cycInt], [cycType], []⟩

def cycBuilder : Builder := ⟨cycService, none, []⟩

/-- Widget type of the running acyclic example. -/
def exWidget : Type' := ⟨⟨"widget"⟩, [⟨⟨"name"⟩, ⟨"string"⟩, true, false, true, none⟩], none⟩

/-- Method `getWidget(id: string) -> Widget`. -/
def exGetWidget : Method :=
  ⟨⟨"getWidget"⟩, [⟨⟨"id"⟩, ⟨"string"⟩, true, false, true, none⟩],
    some ⟨⟨"widget"⟩, false, false⟩, none⟩

def exInterface : Interface := ⟨⟨"widgets"⟩, [exGetWidget]⟩

def exService : Service := ⟨⟨"my service"⟩, [exInterface], [exWidget], []⟩

def exBuilder : Builder := ⟨exService, none, ["banner line"]⟩

/-- A parameter whose type name resolves to nothing in the registries. -/
def danglingParam : Parameter := ⟨⟨"id"⟩, ⟨"widget"⟩, false, false, true, none⟩

/-- A service with no registered types at all, so `danglingParam` dangles. -/
def danglingService : Service :=
  ⟨⟨"svc"⟩, [⟨⟨"widgets"⟩, [⟨⟨"getWidget"⟩, [danglingParam], none, none⟩]⟩], [], []⟩

def danglingBuilder : Builder := ⟨danglingService, none, []⟩

/-- Two types whose names compare differently under ordinal and locale
comparison: ordinal puts `Beta` before `alpha`, the locale comparison the
other way round. -/
def alphaType : Type' := ⟨⟨"alpha"⟩, [], none⟩

def betaType : Type' := ⟨⟨"Beta"⟩, [], none⟩

/-- Method referencing `Beta` first, then `alpha`. -/
def caseMethod : Method :=
  ⟨⟨"getStuff"⟩,
    [⟨⟨"b"⟩, ⟨"Beta"⟩, false, false, true, none⟩,
     ⟨⟨"a"⟩, ⟨"alpha"⟩, false, false, true, none⟩], none, none⟩

def caseInterface : Interface := ⟨⟨"stuff"⟩, [caseMethod]⟩

def caseService : Service := ⟨⟨"svc"⟩, [caseInterface], [alphaType, betaType], []⟩

def caseBuilder : Builder := ⟨caseService, none, []⟩

/-- A type whose raw name contains an underscore, so the anchor of the raw
name differs from the anchor of the pascal-cased heading. -/
def underscoreType : Type' := ⟨⟨"my_widget"⟩, [], none⟩

def underscoreService : Service := ⟨⟨"svc"⟩, [], [underscoreType], []⟩

def underscoreBuilder : Builder := ⟨underscoreService, none, []⟩

/-- Method whose return type is an array of the named type `widget`. -/
def exListWidgets : Method := ⟨⟨"listWidgets"⟩, [], some ⟨⟨"widget"⟩, false, true⟩, none⟩

/-- Method with an optional parameter declared before a required one. -/
def exMixedMethod : Method :=
  ⟨⟨"doIt"⟩,
    [⟨⟨"a"⟩, ⟨"string"⟩, true, false, false, none⟩,
     ⟨⟨"b"⟩, ⟨"string"⟩, true, false, true, none⟩], none, none⟩

/-- Four parameters in source order [optionalA, requiredB, optionalC,
requiredD]. -/
def exOptA : Parameter := ⟨⟨"a"⟩, ⟨"string"⟩, true, false, false, none⟩

def exReqB : Parameter := ⟨⟨"b"⟩, ⟨"string"⟩, true, false, true, none⟩

def exOptC : Parameter := ⟨⟨"c"⟩, ⟨"string"⟩, true, false, false, none⟩

def exReqD : Parameter := ⟨⟨"d"⟩, ⟨"string"⟩, true, false, true, none⟩

/-- An enum with distinct values in a deliberately unsorted order. -/
def exEnum : Enum := ⟨⟨"color"⟩, [⟨"RED"⟩, ⟨"BLUE"⟩, ⟨"AMBER"⟩]⟩

/-- A one-interface service with no methods, small enough to spell out its
entire generated output. -/
def emptyBuilder : Builder := ⟨⟨⟨"t"⟩, [⟨⟨"empty"⟩, []⟩], [], []⟩, none, []⟩

/-! ## Properties of the collation model -/

theorem cmpLex_eq_iff (xs : List Nat) : ∀ ys, cmpLex xs ys = Ordering.eq ↔ xs = ys := by
  induction xs with
  | nil => intro ys; cases ys <;> simp [cmpLex]
  | cons a as ih =>
    intro ys
    cases ys with
    | nil => simp [cmpLex]
    | cons b bs =>
      simp only [cmpLex]
      cases h : compare a b with
      | eq =>
        have hab : a = b := Nat.compare_eq_eq.mp h
        subst hab
        simp [ih]
      | lt =>
        have hab : a < b := Nat.compare_eq_lt.mp h
        dsimp only
        simp only [List.cons.injEq]
        constructor
        · intro hc; exact absurd hc (by decide)
        · rintro ⟨rfl, -⟩; omega
      | gt =>
        have hab : b < a := Nat.compare_eq_gt.mp h
        dsimp only
        simp only [List.cons.injEq]
        constructor
        · intro hc; exact absurd hc (by decide)
        · rintro ⟨rfl, -⟩; omega

theorem cmpLex_gt_iff (xs : List Nat) : ∀ ys, cmpLex xs ys = Ordering.gt ↔ cmpLex ys xs = Ordering.lt := by
  induction xs with
  | nil => intro ys; cases ys <;> simp [cmpLex]
  | cons a as ih =>
    intro ys
    cases ys with
    | nil => simp [cmpLex]
    | cons b bs =>
      simp only [cmpLex]
      cases h : compare a b with
      | eq =>
        have hab : a = b := Nat.compare_eq_eq.mp h
        subst hab
        rw [show compare a a = Ordering.eq from Nat.compare_eq_eq.mpr rfl]
        exact ih bs
      | lt =>
        have hab : a < b := Nat.compare_eq_lt.mp h
        rw [show compare b a = Ordering.gt from Nat.compare_eq_gt.mpr hab]
        dsimp only
        decide
      | gt =>
        have hab : b < a := Nat.compare_eq_gt.mp h
        rw [show compare b a = Ordering.lt from Nat.compare_eq_lt.mpr hab]
        dsimp only
        decide

theorem cmpLex_lt_trans {xs ys zs : List Nat} :
    cmpLex xs ys = Ordering.lt → cmpLex ys zs = Ordering.lt → cmpLex xs zs = Ordering.lt := by
  induction xs generalizing ys zs with
  | nil =>
    intro h1 h2
    cases zs with
    | nil =>
      cases ys with
      | nil => exact absurd h1 (by simp [cmpLex])
      | cons b bs => exact absurd h2 (by simp [cmpLex])
    | cons c cs => simp [cmpLex]
  | cons a as ih =>
    intro h1 h2
    cases ys with
    | nil => exact absurd h1 (by simp [cmpLex])
    | cons b bs =>
      cases zs with
      | nil => exact absurd h2 (by simp [cmpLex])
      | cons c cs =>
        simp only [cmpLex] at h1 h2 ⊢
        cases hab : compare a b with
        | eq =>
          have : a = b := Nat.compare_eq_eq.mp hab
          subst this
          rw [hab] at h1
          cases hac : compare a c with
          | eq =>
            have : a = c := Nat.compare_eq_eq.mp hac
            subst this
            rw [show compare a a = Ordering.eq from Nat.compare_eq_eq.mpr rfl] at h2
            exact ih h1 h2
          | lt => rfl
          | gt =>
            rw [hac] at h2
            dsimp only at h2
            exact absurd h2 (by decide)
        | lt =>
          have hab' : a < b := Nat.compare_eq_lt.mp hab
          cases hbc : compare b c with
          | eq =>
            have : b = c := Nat.compare_eq_eq.mp hbc
            subst this
            rw [show compare a b = Ordering.lt from Nat.compare_eq_lt.mpr hab']
          | lt =>
            have hbc' : b < c := Nat.compare_eq_lt.mp hbc
            rw [show compare a c = Ordering.lt from Nat.compare_eq_lt.mpr (by omega)]
          | gt =>
            rw [hbc] at h2
            dsimp only at h2
            exact absurd h2 (by decide)
        | gt =>
          rw [hab] at h1
          dsimp only at h1
          exact absurd h1 (by decide)

theorem cmpLex_ne_gt_iff (xs ys : List Nat) :
    cmpLex xs ys ≠ Ordering.gt ↔ (cmpLex xs ys = Ordering.lt ∨ xs = ys) := by
  cases h : cmpLex xs ys with
  | lt => simp
  | eq => simp [← cmpLex_eq_iff xs ys, h]
  | gt =>
    simp only [ne_eq, not_true_eq_false, false_iff]
    rintro (hc | rfl)
    · exact absurd hc (by simp [h] at hc ⊢)
    · rw [cmpLex_eq_iff xs xs |>.mpr rfl] at h
      exact absurd h (by decide)

theorem cmpLex_ne_gt_trans {xs ys zs : List Nat} :
    cmpLex xs ys ≠ Ordering.gt → cmpLex ys zs ≠ Ordering.gt → cmpLex xs zs ≠ Ordering.gt := by
  rw [cmpLex_ne_gt_iff, cmpLex_ne_gt_iff, cmpLex_ne_gt_iff]
  rintro (h1 | rfl) (h2 | rfl)
  · exact Or.inl (cmpLex_lt_trans h1 h2)
  · exact Or.inl h1
  · exact Or.inl h2
  · exact Or.inr rfl

theorem cmpLex_ne_gt_total (xs ys : List Nat) :
    cmpLex xs ys ≠ Ordering.gt ∨ cmpLex ys xs ≠ Ordering.gt := by
  by_cases h : cmpLex xs ys = Ordering.gt
  · right
    rw [cmpLex_gt_iff] at h
    simp [h]
  · exact Or.inl h

theorem localeCompareOrd_ne_gt_iff (a b : String) :
    localeCompareOrd a b ≠ Ordering.gt ↔
      (cmpLex (a.data.map primChar) (b.data.map primChar) = Ordering.lt ∨
        (a.data.map primChar = b.data.map primChar ∧
          cmpLex (a.data.map tertChar) (b.data.map tertChar) ≠ Ordering.gt)) := by
  unfold localeCompareOrd
  cases h : cmpLex (a.data.map primChar) (b.data.map primChar) with
  | lt => dsimp only; simp
  | eq => dsimp only; simp [(cmpLex_eq_iff _ _).mp h]
  | gt =>
    dsimp only
    simp only [ne_eq, not_true_eq_false, false_iff, not_or, not_and]
    constructor
    · decide
    · rintro hpe
      rw [hpe, (cmpLex_eq_iff _ _).mpr rfl] at h
      exact absurd h (by decide)

theorem localeCompareOrd_gt_iff (a b : String) :
    localeCompareOrd a b = Ordering.gt ↔
      (cmpLex (a.data.map primChar) (b.data.map primChar) = Ordering.gt ∨
        (a.data.map primChar = b.data.map primChar ∧
          cmpLex (a.data.map tertChar) (b.data.map tertChar) = Ordering.gt)) := by
  unfold localeCompareOrd
  cases h : cmpLex (a.data.map primChar) (b.data.map primChar) with
  | lt =>
    dsimp only
    constructor
    · intro hx; exact absurd hx (by decide)
    · rintro (hx | ⟨hpe, -⟩)
      · exact hx
      · rw [hpe, (cmpLex_eq_iff _ _).mpr rfl] at h
        exact absurd h (by decide)
  | eq => dsimp only; simp [(cmpLex_eq_iff _ _).mp h]
  | gt => exact iff_of_true rfl (Or.inl rfl)

theorem localeCompareOrd_ne_gt_trans (a b c : String) :
    localeCompareOrd a b ≠ Ordering.gt → localeCompareOrd b c ≠ Ordering.gt →
    localeCompareOrd a c ≠ Ordering.gt := by
  rw [localeCompareOrd_ne_gt_iff, localeCompareOrd_ne_gt_iff, localeCompareOrd_ne_gt_iff]
  rintro (h1 | ⟨hp1, ht1⟩) (h2 | ⟨hp2, ht2⟩)
  · exact Or.inl (cmpLex_lt_trans h1 h2)
  · rw [← hp2]; exact Or.inl h1
  · rw [hp1]; exact Or.inl h2
  · exact Or.inr ⟨hp1.trans hp2, cmpLex_ne_gt_trans ht1 ht2⟩

theorem localeCompareOrd_gt_asymm (a b : String) :
    localeCompareOrd a b = Ordering.gt → localeCompareOrd b a ≠ Ordering.gt := by
  rw [localeCompareOrd_gt_iff, localeCompareOrd_ne_gt_iff]
  rintro (h | ⟨hp, ht⟩)
  · exact Or.inl ((cmpLex_gt_iff _ _).mp h)
  · refine Or.inr ⟨hp.symm, ?_⟩
    rw [(cmpLex_gt_iff _ _).mp ht]
    decide

theorem localeCompare_le_iff (a b : String) :
    localeCompare a b ≤ 0 ↔ localeCompareOrd a b ≠ Ordering.gt := by
  unfold localeCompare
  cases h : localeCompareOrd a b <;> simp

theorem lcLe_trans (a b c : String) :
    localeCompare a b ≤ 0 → localeCompare b c ≤ 0 → localeCompare a c ≤ 0 := by
  rw [localeCompare_le_iff, localeCompare_le_iff, localeCompare_le_iff]
  exact localeCompareOrd_ne_gt_trans a b c

theorem lcLe_total (a b : String) : localeCompare a b ≤ 0 ∨ localeCompare b a ≤ 0 := by
  rw [localeCompare_le_iff, localeCompare_le_iff]
  by_cases h : localeCompareOrd a b = Ordering.gt
  · exact Or.inr (localeCompareOrd_gt_asymm a b h)
  · exact Or.inl h

theorem sortByName_pairwise {α : Type} (key : α → String) (xs : List α) :
    List.Pairwise (fun x y => localeCompare (key x) (key y) ≤ 0) (sortByName key xs) := by
  haveI : IsTotal α (byNameLe key) := ⟨fun x y => lcLe_total (key x) (key y)⟩
  haveI : IsTrans α (byNameLe key) := ⟨fun x y z => lcLe_trans (key x) (key y) (key z)⟩
  exact List.sorted_insertionSort (byNameLe key) xs

theorem sortByName_perm {α : Type} (key : α → String) (xs : List α) :
    (sortByName key xs).Perm xs :=
  List.perm_insertionSort (byNameLe key) xs

/-! ## Stability of the parameter sort -/

theorem orderedInsert_of_all {α : Type} (r : α → α → Prop) [DecidableRel r]
    (p : α) (l : List α) (h : ∀ x, r p x) : List.orderedInsert r p l = p :: l := by
  cases l with
  | nil => rfl
  | cons b bs => simp [List.orderedInsert, h b]

theorem orderedInsert_append {α : Type} (r : α → α → Prop) [DecidableRel r]
    (p : α) (l₁ l₂ : List α) (h1 : ∀ x ∈ l₁, ¬ r p x) (h2 : ∀ x ∈ l₂, r p x) :
    List.orderedInsert r p (l₁ ++ l₂) = l₁ ++ p :: l₂ := by
  induction l₁ with
  | nil =>
    cases l₂ with
    | nil => rfl
    | cons c cs => simp [List.orderedInsert, h2 c (List.mem_cons_self c cs)]
  | cons b bs ih =>
    have hb : ¬ r p b := h1 b (List.mem_cons_self b bs)
    simp only [List.cons_append, List.orderedInsert, if_neg hb]
    exact congrArg (List.cons b) (ih (fun x hx => h1 x (List.mem_cons_of_mem b hx)))

theorem sortParameters_eq_filter (ps : List Parameter) :
    sortParameters ps =
      ps.filter (fun p => isRequired p) ++ ps.filter (fun p => !(isRequired p)) := by
  unfold sortParameters
  induction ps with
  | nil => rfl
  | cons p ps ih =>
    simp only [List.insertionSort]
    rw [ih]
    by_cases hp : isRequired p = true
    · rw [orderedInsert_of_all _ p _ ?_]
      · simp [List.filter_cons, hp]
      · intro x
        show ((if isRequired p = true then (0 : Int) else 1) -
          (if isRequired x = true then 0 else 1)) ≤ 0
        rw [if_pos hp]
        split <;> omega
    · rw [orderedInsert_append _ p _ _ ?_ ?_]
      · simp [List.filter_cons, hp]
      · intro x hx
        have hxr : isRequired x = true := by
          have := (List.mem_filter.mp hx).2
          simpa using this
        show ¬ (((if isRequired p = true then (0 : Int) else 1) -
          (if isRequired x = true then 0 else 1)) ≤ 0)
        rw [if_neg hp, if_pos hxr]
        omega
      · intro x hx
        have hxr : isRequired x = false := by
          have := (List.mem_filter.mp hx).2
          simpa using this
        show ((if isRequired p = true then (0 : Int) else 1) -
          (if isRequired x = true then 0 else 1)) ≤ 0
        rw [if_neg hp, if_neg (by simp [hxr])]
        omega

/-! ## Reachable types are registered types -/

theorem mem_foldl_addFound {α : Type} [DecidableEq α] :
    ∀ (l : List α) (acc : List α) (x : α), x ∈ l.foldl addFound acc → x ∈ acc ∨ x ∈ l := by
  intro l
  induction l with
  | nil => intro acc x h; exact Or.inl h
  | cons a as ih =>
    intro acc x h
    simp only [List.foldl_cons] at h
    rcases ih (addFound acc a) x h with hacc | has
    · unfold addFound at hacc
      split at hacc
      · exact Or.inl hacc
      · rcases List.mem_append.mp hacc with h1 | h2
        · exact Or.inl h1
        · simp only [List.mem_singleton] at h2
          exact Or.inr (h2 ▸ List.mem_cons_self a as)
    · exact Or.inr (List.mem_cons_of_mem a has)

theorem traversePropsAux_mem (service : Service) (rec : Type' → Option (List Type'))
    (hT : ∀ t ts, rec t = some ts → ∀ x ∈ ts, x = t ∨ x ∈ service.types) :
    ∀ props ts, traversePropsAux service rec props = some ts →
      ∀ x ∈ ts, x ∈ service.types := by
  intro props
  induction props with
  | nil =>
    intro ts h x hx
    simp only [traversePropsAux] at h
    cases h
    simp at hx
  | cons prop ps ih =>
    intro ts h x hx
    by_cases hp : prop.isPrimitive = true
    · rw [traversePropsAux, if_pos hp] at h
      exact ih ts h x hx
    · rw [traversePropsAux, if_neg hp] at h
      cases hg : getTypeByName service prop.typeName.value with
      | none =>
        rw [hg] at h
        exact ih ts h x hx
      | some subtype =>
        rw [hg] at h
        dsimp only at h
        cases h1 : rec subtype with
        | none =>
          rw [h1] at h
          cases h2 : traversePropsAux service rec ps with
          | none => rw [h2] at h; simp at h
          | some rest => rw [h2] at h; simp at h
        | some found =>
          cases h2 : traversePropsAux service rec ps with
          | none => rw [h1, h2] at h; simp at h
          | some rest =>
            rw [h1, h2] at h
            dsimp only at h
            cases h
            rcases List.mem_append.mp hx with hf | hr
            · rcases hT subtype found h1 x hf with rfl | hmem
              · exact List.mem_of_find?_eq_some hg
              · exact hmem
            · exact ih rest h2 x hr

theorem traverseType_mem (service : Service) :
    ∀ fuel t ts, traverseType fuel service t = some ts →
      ∀ x ∈ ts, x = t ∨ x ∈ service.types := by
  intro fuel
  induction fuel with
  | zero => intro t ts h; simp [traverseType] at h
  | succ f ihf =>
    intro t ts h x hx
    simp only [traverseType] at h
    cases hp : traversePropsAux service (fun t => traverseType f service t) t.properties with
    | none => rw [hp] at h; simp at h
    | some rest =>
      rw [hp] at h
      simp only [Option.map_some'] at h
      cases h
      rcases List.mem_cons.mp hx with rfl | hr
      · exact Or.inl rfl
      · exact Or.inr (traversePropsAux_mem service _ (fun t' ts' h' => ihf t' ts' h')
          t.properties rest hp x hr)

theorem typesFromParams_mem (service : Service) (fuel : Nat) :
    ∀ params acc res, typesFromParams service fuel params acc = some res →
      ∀ x ∈ res, x ∈ acc ∨ x ∈ service.types := by
  intro params
  induction params with
  | nil =>
    intro acc res h x hx
    simp only [typesFromParams] at h
    cases h
    exact Or.inl hx
  | cons param ps ih =>
    intro acc res h x hx
    by_cases hp : param.isPrimitive = true
    · rw [typesFromParams, if_pos hp] at h
      exact ih acc res h x hx
    · rw [typesFromParams, if_neg hp] at h
      cases hg : getTypeByName service param.typeName.value with
      | none =>
        rw [hg] at h
        exact ih acc res h x hx
      | some paramType =>
        rw [hg] at h
        dsimp only at h
        cases h1 : traverseType fuel service paramType with
        | none => rw [h1] at h; simp at h
        | some found =>
          rw [h1] at h
          dsimp only at h
          rcases ih _ res h x hx with hacc | hty
          · rcases mem_foldl_addFound found acc x hacc with h2 | h3
            · exact Or.inl h2
            · rcases traverseType_mem service fuel paramType found h1 x h3 with rfl | h4
              · exact Or.inr (List.mem_of_find?_eq_some hg)
              · exact Or.inr h4
          · exact Or.inr hty

theorem typesFromMethods_mem (service : Service) (fuel : Nat) :
    ∀ methods acc res, typesFromMethods service fuel methods acc = some res →
      ∀ x ∈ res, x ∈ acc ∨ x ∈ service.types := by
  intro methods
  induction methods with
  | nil =>
    intro acc res h x hx
    simp only [typesFromMethods] at h
    cases h
    exact Or.inl hx
  | cons method ms ih =>
    intro acc res h x hx
    rw [typesFromMethods] at h
    cases hps : typesFromParams service fuel method.parameters acc with
    | none => rw [hps] at h; simp at h
    | some acc2 =>
      rw [hps] at h
      dsimp only at h
      have hacc2 : ∀ y ∈ acc2, y ∈ acc ∨ y ∈ service.types :=
        typesFromParams_mem service fuel method.parameters acc acc2 hps
      cases hrt : method.returnType with
      | none =>
        rw [hrt] at h
        try dsimp only at h
        rcases ih acc2 res h x hx with h2 | h3
        · exact hacc2 x h2
        · exact Or.inr h3
      | some rt =>
        rw [hrt] at h
        try dsimp only at h
        by_cases hrp : rt.isPrimitive = true
        · rw [if_pos hrp] at h
          rcases ih acc2 res h x hx with h2 | h3
          · exact hacc2 x h2
          · exact Or.inr h3
        · rw [if_neg hrp] at h
          cases hg : getTypeByName service rt.typeName.value with
          | none =>
            rw [hg] at h
            try dsimp only at h
            rcases ih acc2 res h x hx with h2 | h3
            · exact hacc2 x h2
            · exact Or.inr h3
          | some returnType =>
            rw [hg] at h
            try dsimp only at h
            cases h1 : traverseType fuel service returnType with
            | none => rw [h1] at h; simp at h
            | some found =>
              rw [h1] at h
              try dsimp only at h
              rcases ih _ res h x hx with h2 | h3
              · rcases mem_foldl_addFound found acc2 x h2 with h4 | h5
                · exact hacc2 x h4
                · rcases traverseType_mem service fuel returnType found h1 x h5 with rfl | h6
                  · exact Or.inr (List.mem_of_find?_eq_some hg)
                  · exact Or.inr h6
              · exact Or.inr h3

theorem types_mem (b : Builder) (fuel : Nat) (int : Interface) (ts : List Type')
    (h : b.types fuel int = some ts) : ∀ x ∈ ts, x ∈ b.service.types := by
  intro x hx
  unfold Builder.types at h
  cases hm : typesFromMethods b.service fuel int.methods [] with
  | none => rw [hm] at h; simp at h
  | some found =>
    rw [hm] at h
    simp only [Option.map_some'] at h
    cases h
    have hperm := sortByName_perm (fun t : Type' => t.name.value) found
    rcases typesFromMethods_mem b.service fuel int.methods [] found hm x
        (hperm.mem_iff.mp hx) with h2 | h3
    · simp at h2
    · exact h3

theorem types_name_absent (b : Builder) (fuel : Nat) (int : Interface)
    (ts : List Type') (n : String) (h : b.types fuel int = some ts)
    (hn : getTypeByName b.service n = none) : ∀ t ∈ ts, t.name.value ≠ n := by
  intro t ht heq
  have hmem := types_mem b fuel int ts h t ht
  have := List.find?_eq_none.mp hn t hmem
  simp [heq] at this

/-! ## Stripping the namespace qualifier -/

theorem string_drop_length_append (a b : String) : (a ++ b).drop a.length = b := by
  apply String.ext
  rw [String.drop_eq]
  show List.drop a.length (a ++ b).data = b.data
  rw [String.data_append]
  have : a.length = a.data.length := rfl
  rw [this, List.drop_left]

theorem drop_namespace (ns p : String) : (ns ++ "::" ++ p).drop (ns.length + 2) = p := by
  have h : ns.length + 2 = (ns ++ "::").length := by
    rw [String.length_append, show ("::" : String).length = 2 from rfl]
  rw [h, string_drop_length_append]

theorem buildTypeName_nonprim (b : Builder) (r : TypeRef) (h : r.isPrimitive = false) :
    b.buildTypeName r true = pascal r.typeName.value := by
  unfold Builder.buildTypeName buildTypeNameExt
  rw [h]
  simp only [Bool.false_eq_true, if_false, Bool.not_true, Bool.and_false]
  exact drop_namespace _ _

theorem buildLinkedTypeName_nonprim (b : Builder) (r : TypeRef) (h : r.isPrimitive = false) :
    b.buildLinkedTypeName r =
      "[" ++ pascal r.typeName.value ++ "](" ++ anchor (pascal r.typeName.value) ++ ")" ++
        (if r.isArray then "[]" else "") := by
  unfold Builder.buildLinkedTypeName
  rw [buildTypeName_nonprim b r h, h]
  simp

/-! ## Structure of the generated file list -/

theorem optionMap_length_get {α β : Type} (f : α → Option β) :
    ∀ (xs : List α) (ys : List β), optionMap f xs = some ys →
      ys.length = xs.length ∧
      ∀ i (h1 : i < ys.length) (h2 : i < xs.length),
        f (xs.get ⟨i, h2⟩) = some (ys.get ⟨i, h1⟩) := by
  intro xs
  induction xs with
  | nil =>
    intro ys h
    simp only [optionMap] at h
    cases h
    exact ⟨rfl, fun i h1 => absurd h1 (by simp)⟩
  | cons a as ih =>
    intro ys h
    simp only [optionMap] at h
    cases hfa : f a with
    | none => rw [hfa] at h; simp at h
    | some b =>
      rw [hfa] at h
      cases hrec : optionMap f as with
      | none => rw [hrec] at h; simp at h
      | some bs =>
        rw [hrec] at h
        dsimp only at h
        cases h
        obtain ⟨hlen, hget⟩ := ih bs hrec
        refine ⟨by simp [hlen], ?_⟩
        intro i h1 h2
        cases i with
        | zero => simpa using hfa
        | succ n =>
          exact hget n (Nat.lt_of_succ_lt_succ h1) (Nat.lt_of_succ_lt_succ h2)

/-! ## Banner independence -/

theorem warning_drop (w rest : List String) :
    (("<!--" :: (w ++ ["--->"])) ++ rest).drop (w.length + 2) = rest := by
  have h : ("<!--" :: (w ++ ["--->"])).length = w.length + 2 := by simp
  rw [← h, List.drop_left]

theorem docsTail_warning_irrelevant (s : Service) (o : Option NamespacedSorbetOptions)
    (w1 w2 : List String) (fuel : Nat) (int : Interface) :
    (Builder.mk s o w1).docsTail fuel int = (Builder.mk s o w2).docsTail fuel int := rfl

theorem buildInterfaceDocs_drop (s : Service) (o : Option NamespacedSorbetOptions)
    (w : List String) (fuel : Nat) (int : Interface) :
    ((Builder.mk s o w).buildInterfaceDocs fuel int).map (fun ls => ls.drop (w.length + 2)) =
      (Builder.mk s o w).docsTail fuel int := by
  unfold Builder.buildInterfaceDocs
  cases h : (Builder.mk s o w).docsTail fuel int with
  | none => simp
  | some rest =>
    simp only [Option.map_some']
    show some ((("<!--" :: (w ++ ["--->"])) ++ rest).drop (w.length + 2)) = some rest
    rw [warning_drop]

theorem buildInterfaceDocsFile_eq (s : Service) (o : Option NamespacedSorbetOptions)
    (w : List String) (fuel : Nat) (int : Interface) :
    (Builder.mk s o w).buildInterfaceDocsFile fuel int =
      ((Builder.mk s o w).docsTail fuel int).map
        (fun rest => ⟨buildInterfaceDocsFilepath int s o,
          fromLines (("<!--" :: (w ++ ["--->"])) ++ rest)⟩) := by
  unfold Builder.buildInterfaceDocsFile Builder.buildInterfaceDocs
  cases hd : (Builder.mk s o w).docsTail fuel int with
  | none => rfl
  | some rest => rfl

theorem build_paths_warning_irrelevant (s : Service) (o : Option NamespacedSorbetOptions)
    (w1 w2 : List String) (fuel : Nat) :
    ((Builder.mk s o w1).build fuel).map (List.map File'.path) =
      ((Builder.mk s o w2).build fuel).map (List.map File'.path) := by
  unfold Builder.build
  suffices h : ∀ ints : List Interface,
      (optionMap (fun int => (Builder.mk s o w1).buildInterfaceDocsFile fuel int) ints).map
          (List.map File'.path) =
        (optionMap (fun int => (Builder.mk s o w2).buildInterfaceDocsFile fuel int) ints).map
          (List.map File'.path) from h s.interfaces
  intro ints
  induction ints with
  | nil => rfl
  | cons int ints ih =>
    simp only [optionMap]
    rw [buildInterfaceDocsFile_eq s o w1 fuel int, buildInterfaceDocsFile_eq s o w2 fuel int,
      docsTail_warning_irrelevant s o w1 w2 fuel int]
    cases hd : (Builder.mk s o w2).docsTail fuel int with
    | none => rfl
    | some rest =>
      simp only [Option.map_some']
      cases h1 : optionMap (fun int => (Builder.mk s o w1).buildInterfaceDocsFile fuel int) ints with
      | none =>
        rw [h1] at ih
        cases h2 : optionMap (fun int => (Builder.mk s o w2).buildInterfaceDocsFile fuel int) ints with
        | none => rfl
        | some files2 => rw [h2] at ih; simp at ih
      | some files1 =>
        rw [h1] at ih
        cases h2 : optionMap (fun int => (Builder.mk s o w2).buildInterfaceDocsFile fuel int) ints with
        | none => rw [h2] at ih; simp at ih
        | some files2 =>
          rw [h2] at ih
          simp only [Option.map_some', Option.some.injEq] at ih
          dsimp only
          simp [ih]

/-! ## Shape of rendered lines -/

theorem isBulletLine_bullet (x : String) : isBulletLine ("- `" ++ x ++ "`") = true := by
  unfold isBulletLine
  simp [String.data_append, List.take]

theorem isBulletLine_heading (x : String) : isBulletLine ("### " ++ x) = false := by
  unfold isBulletLine
  simp [String.data_append, List.take]

theorem isBulletLine_code (x : String) : isBulletLine ("`" ++ x) = false := by
  unfold isBulletLine
  simp [String.data_append, List.take]

theorem isBulletLine_blank : isBulletLine "" = false := rfl

theorem buildMethodDocs_params_block (b : Builder) (m : Method) (h : m.parameters ≠ []) :
    List.IsInfix (m.parameters.map (fun p => b.buildParameter p)) (b.buildMethodDocs m) := by
  unfold Builder.buildMethodDocs
  rw [if_neg (by simpa using h)]
  refine ⟨["### " ++ buildMethodName m, "", "`" ++ b.buildMethodDefinition m ++ "`"] ++ [""],
    (match m.returnType with
      | some rt =>
        ["", "Returns: " ++ b.buildLinkedTypeName rt ++ (if rt.isArray then "[]" else "")]
      | none => []) ++ descriptionLines m.description ++ [""], ?_⟩
  simp

/-! ## Claims -/

/-- C1: the claim states that the reachable-types computation terminates on
cyclic reference graphs because of a visited set keyed by type name.  The
source `traverseType` has no visited set: on the self-referential type `a`
it recurses forever.  In the fuel-indexed embedding this shows up as the
computation failing to finish within any recursion depth, and the failure
propagates to `Builder#types` and to the whole generation run. -/
theorem claim_C1_traverse_diverges_on_cycle :
    (∀ fuel, traverseType fuel cycService cycType = none) ∧
    (∀ fuel, cycBuilder.types fuel cycInt = none) ∧
    (∀ fuel, cycBuilder.build fuel = none) := by
  have hg : getTypeByName cycService "a" = some cycType := rfl
  have h1 : ∀ fuel, traverseType fuel cycService cycType = none := by
    intro fuel
    induction fuel with
    | zero => rfl
    | succ f ih =>
      rw [traverseType]
      rw [show cycType.properties = [⟨⟨"p"⟩, ⟨"a"⟩, false, false, true, none⟩] from rfl]
      rw [traversePropsAux]
      simp [hg, ih]
  have h2 : ∀ fuel, cycBuilder.types fuel cycInt = none := by
    intro fuel
    unfold Builder.types
    rw [show cycInt.methods =
      [⟨⟨"getA"⟩, [⟨⟨"x"⟩, ⟨"a"⟩, false, false, true, none⟩], none, none⟩] from rfl]
    rw [typesFromMethods, typesFromParams]
    simp [cycBuilder, hg, h1 fuel]
  have h3 : ∀ fuel, cycBuilder.build fuel = none := by
    intro fuel
    unfold Builder.build
    rw [show cycBuilder.service.interfaces = [cycInt] from rfl]
    simp [optionMap, Builder.buildInterfaceDocsFile, Builder.buildInterfaceDocs,
      Builder.docsTail, h2 fuel]
  exact ⟨h1, h2, h3⟩

/-- C2 counterexample: a parameter whose type reference names a type absent
from the registries still renders as a Markdown hyperlink, not as a bare
name — contradicting the claim's "shows the bare type name with no
hyperlink".  The rest of the claim holds: generation still completes. -/
theorem claim_C2_counterexample :
    danglingBuilder.buildParameter danglingParam = "- `id` [Widget](#widget)" ∧
    danglingBuilder.buildParameter danglingParam ≠ "- `id` Widget" ∧
    (danglingBuilder.build 5).isSome = true := by decide

/-- C2 (amended): a non-primitive parameter reference always renders as a
Markdown link labelled with the bare pascal-cased type name — a dead link
when the reference is dangling — and a dangling reference never contributes
to the reachable-types collection. -/
theorem claim_C2_dangling_reference_tolerance (b : Builder) (p : Parameter)
    (hnp : p.isPrimitive = false) :
    b.buildParameter p =
      "- `" ++ buildParameterName p ++ "` " ++
        ("[" ++ pascal p.typeName.value ++ "](" ++ anchor (pascal p.typeName.value) ++ ")" ++
          (if p.isArray then "[]" else "")) ++
        (if isRequired p then "" else " (optional)") ++
        buildParameterDescription p.description ∧
    (getTypeByName b.service p.typeName.value = none →
      ∀ fuel int ts, b.types fuel int = some ts →
        ∀ t ∈ ts, t.name.value ≠ p.typeName.value) := by
  constructor
  · unfold Builder.buildParameter
    rw [buildLinkedTypeName_nonprim b p.toRef (by simpa [Parameter.toRef] using hnp)]
    rfl
  · intro hn fuel int ts hts
    exact types_name_absent b fuel int ts _ hts hn

/-- C2 witness: the amended statement evaluated on the dangling example. -/
theorem claim_C2_witness :
    danglingBuilder.buildParameter danglingParam =
      "- `" ++ buildParameterName danglingParam ++ "` " ++
        ("[" ++ pascal danglingParam.typeName.value ++ "](" ++
          anchor (pascal danglingParam.typeName.value) ++ ")" ++
          (if danglingParam.isArray then "[]" else "")) ++
        (if isRequired danglingParam then "" else " (optional)") ++
        buildParameterDescription danglingParam.description ∧
    ∀ t ∈ ([] : List Type'), t.name.value ≠ danglingParam.typeName.value := by
  obtain ⟨ha, hb⟩ :=
    claim_C2_dangling_reference_tolerance danglingBuilder danglingParam (by decide)
  exact ⟨ha, hb (by decide) 5 ⟨⟨"widgets"⟩, [⟨⟨"getWidget"⟩, [danglingParam], none, none⟩]⟩
    [] (by decide)⟩

/-- C3 counterexample: the source sorts with `localeCompare`, which is
locale-sensitive, not ordinal.  With types named `alpha` and `Beta` the
rendered order is `alpha` before `Beta`, although ordinal (code-unit)
comparison puts `"Beta"` strictly before `"alpha"` — so the lists are not in
ascending ordinal order as claimed. -/
theorem claim_C3_counterexample :
    caseBuilder.types 1 caseInterface = some [alphaType, betaType] ∧
    caseBuilder.buildToc 1 caseInterface =
      some ["- Methods", "  - [get_stuff](#get_stuff)",
        "- Types", "  - [Alpha](#alpha)", "  - [Beta](#beta)"] ∧
    ¬ ordinalLt "alpha" "Beta" ∧ ordinalLt "Beta" "alpha" := by decide

/-- C3 (amended): the methods, reachable-types and reachable-enums lists are
in ascending order under the locale-sensitive `localeCompare` comparison
(not under ordinal comparison), and the rendered table of contents lists the
three collections in exactly these orders. -/
theorem claim_C3_lists_locale_sorted (b : Builder) (fuel : Nat) (int : Interface) :
    List.Pairwise (fun x y : Method => localeCompare x.name.value y.name.value ≤ 0)
      (b.methods int) ∧
    (∀ ts, b.types fuel int = some ts →
      List.Pairwise (fun x y : Type' => localeCompare x.name.value y.name.value ≤ 0) ts) ∧
    (∀ es, b.enums fuel int = some es →
      List.Pairwise (fun x y : Enum => localeCompare x.name.value y.name.value ≤ 0) es) ∧
    (∀ ts es toc, b.types fuel int = some ts → b.enums fuel int = some es →
      b.buildToc fuel int = some toc →
      toc = (if (b.methods int).isEmpty then []
             else "- Methods" :: (b.methods int).map tocMethodLine)
        ++ (if ts.isEmpty then [] else "- Types" :: ts.map tocTypeLine)
        ++ (if es.isEmpty then [] else "- Enums" :: es.map tocEnumLine)) := by
  refine ⟨sortByName_pairwise _ _, ?_, ?_, ?_⟩
  · intro ts hts
    unfold Builder.types at hts
    cases hm : typesFromMethods b.service fuel int.methods [] with
    | none => rw [hm] at hts; simp at hts
    | some found =>
      rw [hm] at hts
      simp only [Option.map_some', Option.some.injEq] at hts
      rw [← hts]
      exact sortByName_pairwise _ _
  · intro es hes
    unfold Builder.enums at hes
    cases hm : b.types fuel int with
    | none => rw [hm] at hes; simp at hes
    | some ts =>
      rw [hm] at hes
      simp at hes
      rw [← hes]
      exact sortByName_pairwise _ _
  · intro ts es toc h1 h2 h3
    unfold Builder.buildToc at h3
    rw [h1, h2] at h3
    exact (Option.some.inj h3).symm

/-- C3 witness: the amended ordering statement evaluated on the running
example (one method, one reachable type, no enums). -/
theorem claim_C3_witness :
    List.Pairwise (fun x y : Method => localeCompare x.name.value y.name.value ≤ 0)
      (exBuilder.methods exInterface) ∧
    List.Pairwise (fun x y : Type' => localeCompare x.name.value y.name.value ≤ 0)
      [exWidget] ∧
    (["- Methods", "  - [get_widget](#get_widget)", "- Types", "  - [Widget](#widget)"] :
        List String) =
      (if (exBuilder.methods exInterface).isEmpty then []
       else "- Methods" :: (exBuilder.methods exInterface).map tocMethodLine)
        ++ (if ([exWidget] : List Type').isEmpty then []
            else "- Types" :: ([exWidget] : List Type').map tocTypeLine)
        ++ (if ([] : List Enum).isEmpty then []
            else "- Enums" :: ([] : List Enum).map tocEnumLine) :=
  ⟨(claim_C3_lists_locale_sorted exBuilder 10 exInterface).1,
   (claim_C3_lists_locale_sorted exBuilder 10 exInterface).2.1 [exWidget] (by decide),
   (claim_C3_lists_locale_sorted exBuilder 10 exInterface).2.2.2 [exWidget] []
     ["- Methods", "  - [get_widget](#get_widget)", "- Types", "  - [Widget](#widget)"]
     (by decide) (by decide) (by decide)⟩

/-- C4 counterexample: for the type named `my_widget` the table-of-contents
link targets `#my_widget` (anchor of the raw name), while the section
heading `### MyWidget` implies the anchor `#mywidget` — the two do not
match, contradicting the claim's "for every display name". -/
theorem claim_C4_counterexample :
    tocTypeLine underscoreType = "  - [MyWidget](#my_widget)" ∧
    underscoreBuilder.buildTypeDocs underscoreType =
      ["### MyWidget", "", "`Svc::Types::MyWidget`", ""] ∧
    anchor "my_widget" ≠ anchor (pascal "my_widget") := by decide

/-- C4 (amended): `anchor "Get Widget" = "#get-widget"`; every method's
table-of-contents link targets the anchor of its own heading text; a type or
enum heading shows the pascal-cased name while its table-of-contents link
targets the anchor of the raw name, so the two agree exactly when
`anchor raw = anchor (pascal raw)` (true for names without separators,
false e.g. for snake_case names). -/
theorem claim_C4_anchor_law :
    anchor "Get Widget" = "#get-widget" ∧
    (∀ (b : Builder) (m : Method), ∃ rest,
      b.buildMethodDocs m = ("### " ++ buildMethodName m) :: rest ∧
      tocMethodLine m =
        "  - [" ++ buildMethodName m ++ "](" ++ anchor (buildMethodName m) ++ ")") ∧
    (∀ (b : Builder) (t : Type'), ∃ rest,
      b.buildTypeDocs t = ("### " ++ pascal t.name.value) :: rest ∧
      tocTypeLine t = "  - [" ++ pascal t.name.value ++ "](" ++ anchor t.name.value ++ ")" ∧
      (anchor t.name.value = anchor (pascal t.name.value) →
        tocTypeLine t =
          "  - [" ++ pascal t.name.value ++ "](" ++ anchor (pascal t.name.value) ++ ")")) ∧
    (∀ (b : Builder) (e : Enum), ∃ rest,
      b.buildEnumDocs e = ("### " ++ pascal e.name.value) :: rest ∧
      tocEnumLine e = "  - [" ++ pascal e.name.value ++ "](" ++ anchor e.name.value ++ ")" ∧
      (anchor e.name.value = anchor (pascal e.name.value) →
        tocEnumLine e =
          "  - [" ++ pascal e.name.value ++ "](" ++ anchor (pascal e.name.value) ++ ")")) := by
  refine ⟨by decide, ?_, ?_, ?_⟩
  · intro b m
    exact ⟨_, rfl, rfl⟩
  · intro b t
    exact ⟨_, rfl, rfl, fun h => by rw [← h]; rfl⟩
  · intro b e
    exact ⟨_, rfl, rfl, fun h => by rw [← h]; rfl⟩

/-- C4 witness: for the separator-free name `widget` the table-of-contents
link target coincides with the anchor implied by the pascal-cased heading. -/
theorem claim_C4_witness :
    tocTypeLine exWidget =
      "  - [" ++ pascal exWidget.name.value ++ "](" ++
        anchor (pascal exWidget.name.value) ++ ")" := by
  obtain ⟨rest, -, -, h⟩ := claim_C4_anchor_law.2.2.1 exBuilder exWidget
  exact h (by decide)

/-- C5: the claim says the array marker is appended exactly once on the
Returns line.  The source appends it twice: once inside
`buildLinkedTypeName` and once more in `buildMethodDocs`, so an
array-returning method renders `Returns: [Widget](#widget)[][]`. -/
theorem claim_C5_array_marker_doubled :
    exBuilder.buildMethodDocs exListWidgets =
      ["### list_widgets", "", "`list_widgets`", "",
        "Returns: [Widget](#widget)[][]", ""] ∧
    exBuilder.buildLinkedTypeName ⟨⟨"widget"⟩, false, true⟩ = "[Widget](#widget)[]" := by
  decide

/-- C6: the call signature renders required parameters first, optional
parameters afterwards, each group in source order — `sortParameters` is a
stable sort on the required flag, so it equals the required-filter followed
by the optional-filter; on the four-parameter example the rendered order is
`[requiredB, requiredD, optionalA, optionalC]`. -/
theorem claim_C6_required_params_first :
    (∀ ps : List Parameter,
      sortParameters ps =
        ps.filter (fun p => isRequired p) ++ ps.filter (fun p => !(isRequired p))) ∧
    (∀ (b : Builder) (m : Method),
      b.buildMethodDefinition m = buildMethodName m ++
        (if m.parameters.isEmpty then ""
         else
           "(" ++ String.intercalate ", "
             ((m.parameters.filter (fun p => isRequired p) ++
               m.parameters.filter (fun p => !(isRequired p))).map
               (fun param => buildParameterName param ++ ":" ++
                 (if isRequired param then "" else " nil"))) ++ ")")) ∧
    sortParameters [exOptA, exReqB, exOptC, exReqD] = [exReqB, exReqD, exOptA, exOptC] := by
  refine ⟨sortParameters_eq_filter, ?_, by decide⟩
  intro b m
  unfold Builder.buildMethodDefinition
  rw [sortParameters_eq_filter]

/-- C7: whenever the generator returns (the reachable-types walk finishes),
it returns exactly one output file per interface, the i-th file's path
being the path computed for the i-th interface. -/
theorem claim_C7_one_file_per_interface (b : Builder) (fuel : Nat) (files : List File')
    (h : b.build fuel = some files) :
    files.length = b.service.interfaces.length ∧
    ∀ i (h1 : i < files.length) (h2 : i < b.service.interfaces.length),
      (files.get ⟨i, h1⟩).path =
        buildInterfaceDocsFilepath (b.service.interfaces.get ⟨i, h2⟩) b.service b.options := by
  unfold Builder.build at h
  obtain ⟨hlen, hget⟩ := optionMap_length_get _ _ _ h
  refine ⟨hlen, ?_⟩
  intro i h1 h2
  have hfi := hget i h1 h2
  unfold Builder.buildInterfaceDocsFile at hfi
  cases hd : b.buildInterfaceDocs fuel (b.service.interfaces.get ⟨i, h2⟩) with
  | none => rw [hd] at hfi; simp at hfi
  | some lines =>
    rw [hd] at hfi
    simp only [Option.map_some', Option.some.injEq] at hfi
    rw [← hfi]

/-- C7 witness: a one-interface service generates exactly one file at the
interface's own path. -/
theorem claim_C7_witness :
    ([⟨["t", "empty_service.md"], "<!--\n--->\n\n# Empty Service\n\n"⟩] : List File').length =
      emptyBuilder.service.interfaces.length ∧
    (([⟨["t", "empty_service.md"], "<!--\n--->\n\n# Empty Service\n\n"⟩] :
        List File').get ⟨0, by decide⟩).path =
      buildInterfaceDocsFilepath (emptyBuilder.service.interfaces.get ⟨0, by decide⟩)
        emptyBuilder.service emptyBuilder.options := by
  obtain ⟨h1, h2⟩ := claim_C7_one_file_per_interface emptyBuilder 0
    [⟨["t", "empty_service.md"], "<!--\n--->\n\n# Empty Service\n\n"⟩] (by decide)
  exact ⟨h1, h2 0 (by decide) (by decide)⟩

/-- C8: generation is a deterministic function of the schema model and
options — two runs differing only in the externally injected banner produce
the same file paths and, after dropping the banner block, byte-identical
document lines. -/
theorem claim_C8_deterministic_modulo_banner (s : Service)
    (o : Option NamespacedSorbetOptions) (w1 w2 : List String) (fuel : Nat)
    (int : Interface) :
    ((Builder.mk s o w1).buildInterfaceDocs fuel int).map
        (fun ls => ls.drop (w1.length + 2)) =
      ((Builder.mk s o w2).buildInterfaceDocs fuel int).map
        (fun ls => ls.drop (w2.length + 2)) ∧
    ((Builder.mk s o w1).build fuel).map (List.map File'.path) =
      ((Builder.mk s o w2).build fuel).map (List.map File'.path) := by
  refine ⟨?_, build_paths_warning_irrelevant s o w1 w2 fuel⟩
  rw [buildInterfaceDocs_drop, buildInterfaceDocs_drop,
    docsTail_warning_irrelevant s o w1 w2 fuel int]

/-- C9: the bullet list of a method's parameters is rendered from
`method.parameters` in declaration order (no sorting), even though the call
signature in the same block is rendered from `sortParameters`; on a method
declared `[optionalA, requiredB]` the signature reads `do_it(b:, a: nil)`
while the bullets list `a` before `b`. -/
theorem claim_C9_param_bullets_declaration_order :
    (∀ (b : Builder) (m : Method), m.parameters ≠ [] →
      List.IsInfix (m.parameters.map (fun p => b.buildParameter p))
        (b.buildMethodDocs m)) ∧
    exBuilder.buildMethodDocs exMixedMethod =
      ["### do_it", "", "`do_it(b:, a: nil)`", "",
        "- `a` string (optional)", "- `b` string", ""] := by
  refine ⟨buildMethodDocs_params_block, by decide⟩

/-- C9 witness: the declaration-order bullet block of the mixed method is an
infix of its rendered docs. -/
theorem claim_C9_witness :
    List.IsInfix (exMixedMethod.parameters.map (fun p => exBuilder.buildParameter p))
      (exBuilder.buildMethodDocs exMixedMethod) :=
  claim_C9_param_bullets_declaration_order.1 exBuilder exMixedMethod (by decide)

/-- C10: the bullet lines of an enum section are exactly the enum's literal
values, rendered in declaration order with multiplicity preserved (never
sorted); distinct values therefore each appear exactly once. -/
theorem claim_C10_enum_values_declaration_order :
    (∀ (b : Builder) (e : Enum),
      (b.buildEnumDocs e).filter isBulletLine =
        e.values.map (fun v => "- `" ++ v.value ++ "`")) ∧
    (∀ (b : Builder) (e : Enum), e.values.Nodup →
      ((b.buildEnumDocs e).filter isBulletLine).Nodup) := by
  have hinj : Function.Injective (fun v : Literal => "- `" ++ v.value ++ "`") := by
    intro v w h
    have hd := congrArg String.data h
    simp only [String.data_append] at hd
    have h2 := List.append_cancel_left (List.append_cancel_right hd)
    obtain ⟨vv⟩ := v
    obtain ⟨wv⟩ := w
    exact congrArg Literal.mk (String.ext h2)
  have hfilter : ∀ (b : Builder) (e : Enum),
      (b.buildEnumDocs e).filter isBulletLine =
        e.values.map (fun v => "- `" ++ v.value ++ "`") := by
    intro b e
    unfold Builder.buildEnumDocs
    rw [List.filter_append, List.filter_append]
    have h1 : List.filter isBulletLine
        ["### " ++ pascal e.name.value, "",
          "`" ++ buildTypeNamespace b.service b.options ++ "::" ++ pascal e.name.value ++ "`"] =
        [] := by
      simp only [List.filter, isBulletLine_heading, isBulletLine_blank]
      rw [show ("`" ++ buildTypeNamespace b.service b.options ++ "::" ++
          pascal e.name.value ++ "`") =
        "`" ++ (buildTypeNamespace b.service b.options ++ ("::" ++
          (pascal e.name.value ++ "`"))) from by
        simp [String.append_assoc]]
      simp [isBulletLine_code]
    have h2 : List.filter isBulletLine
        (if e.values.isEmpty then []
         else "" :: e.values.map (fun v => "- `" ++ v.value ++ "`")) =
        e.values.map (fun v => "- `" ++ v.value ++ "`") := by
      cases hv : e.values with
      | nil => simp
      | cons v vs =>
        rw [if_neg (by simp)]
        have hb : isBulletLine "" = false := rfl
        simp only [List.filter_cons, hb, Bool.false_eq_true, if_false]
        rw [List.filter_eq_self.mpr]
        intro a ha
        obtain ⟨u, hu, rfl⟩ := List.mem_map.mp ha
        exact isBulletLine_bullet u.value
    have h3 : List.filter isBulletLine [""] = [] := rfl
    rw [h1, h2, h3]
    simp
  refine ⟨hfilter, ?_⟩
  intro b e hnd
  rw [hfilter b e]
  exact List.Nodup.map hinj hnd

/-- C10 witness: on a three-valued enum the bullet block equals the values
in declaration order and has no duplicates. -/
theorem claim_C10_witness :
    (exBuilder.buildEnumDocs exEnum).filter isBulletLine =
      exEnum.values.map (fun v => "- `" ++ v.value ++ "`") ∧
    ((exBuilder.buildEnumDocs exEnum).filter isBulletLine).Nodup :=
  ⟨claim_C10_enum_values_declaration_order.1 exBuilder exEnum,
   claim_C10_enum_values_declaration_order.2 exBuilder exEnum (by decide)⟩
